import Mathlib

/-!
Verification development for the TradeBotAI playback and trade-reconstruction
core.  The definitions below are shallow embeddings of the TypeScript source:

* `src/src/types/trading.ts` — the `Trade` / `EquityPoint` records;
* `src/src/components/SimulationDesk.tsx` — the playback controller,
  series-aligner lookups (`openTrades`, `currentEquityPoint`, `realizedPnl`)
  and the no-data guard;
* `src/src/components/TvCandles.tsx` — the timestamp normalizer, candle
  validation and the hardcoded fallback series of the chart adapter;
* `src/unnamed/part_001` — the equity-delta trade-marker inference.

Timestamps are modelled as `Int` (epoch instants) and monetary values as `ℚ`;
JavaScript numbers that may be non-finite are modelled by `JsNum`, where
`JsNum.nan` stands for any value rejected by `Number.isFinite`.
-/

namespace TradeBot

/-- Trade side, `"long" | "short"` in `trading.ts`. -/
inductive Side
  | long
  | short
deriving DecidableEq, Repr

/-- The `Trade` record of `src/src/types/trading.ts`. -/
structure Trade where
  id : Nat
  symbol : String
  side : Side
  entry_ts : Int
  exit_ts : Option Int
  entry_price : ℚ
  exit_price : Option ℚ
  qty : ℚ
  pnl : ℚ
  max_drawdown_during_trade : Option ℚ
deriving DecidableEq, Repr

/-- The `EquityPoint` record of `src/src/types/trading.ts`. -/
structure EquityPoint where
  ts : Int
  equity : ℚ
deriving DecidableEq, Repr

/-- A candle as consumed by `SimulationDesk`; `ts` is the timestamp already
resolved by `resolveTimestamp` (`none` when no representation parses), `close`
the close price when present. -/
structure ChartPoint where
  ts : Option Int
  close : Option ℚ
deriving DecidableEq, Repr

/-- `resolveTimestamp` of `SimulationDesk.tsx` (lines 21–37) applied to a
possibly-absent point: `if (!point) return null`, otherwise the resolved
timestamp of the point. -/
def resolveTimestamp : Option ChartPoint → Option Int
  | none => none
  | some p => p.ts

/-- Comparator used by `openTrades`'s `.sort((a, b) => a.entry_ts - b.entry_ts)`. -/
def tradeLe (a b : Trade) : Bool :=
  decide (a.entry_ts ≤ b.entry_ts)

/-- The filter of `SimulationDesk.tsx` lines 114–118:
`trade.entry_ts <= currentTs && (trade.exit_ts == null || trade.exit_ts > currentTs)`. -/
def openTradePred (t : Int) (tr : Trade) : Bool :=
  decide (tr.entry_ts ≤ t) &&
    match tr.exit_ts with
    | none => true
    | some e => decide (t < e)

/-- `openTrades` of `SimulationDesk.tsx` lines 111–120: filter the trades open
at `t` and sort them ascending by entry timestamp.  (The early return for an
empty trade list yields `[]`, which coincides with filtering the empty list.) -/
def openTrades (trades : List Trade) (t : Int) : List Trade :=
  (trades.filter (openTradePred t)).mergeSort tradeLe

/-- The filter of `SimulationDesk.tsx` line 125:
`trade.exit_ts != null && trade.exit_ts <= currentTs`. -/
def closedByPred (t : Int) (tr : Trade) : Bool :=
  match tr.exit_ts with
  | none => false
  | some e => decide (e ≤ t)

/-- `realizedPnl` of `SimulationDesk.tsx` lines 122–127: sum (via `reduce`
with initial accumulator `0`) of the `pnl` of every trade closed at or before
`t`. -/
def realizedPnl (trades : List Trade) (t : Int) : ℚ :=
  (trades.filter (closedByPred t)).foldl (fun s tr => s + tr.pnl) 0

/-- The scan loop of `currentEquityPoint` (`SimulationDesk.tsx` lines 97–104):
walk the series, remembering the last point with `ts <= t`, and stop at the
first point with `ts > t`. -/
def scanLatest (t : Int) : EquityPoint → List EquityPoint → EquityPoint
  | latest, [] => latest
  | latest, p :: rest => if p.ts ≤ t then scanLatest t p rest else latest

/-- `currentEquityPoint`'s lookup (`SimulationDesk.tsx` lines 92–106) for a
known cursor timestamp `t`: `null` on an empty series, otherwise the scan loop
started with `latest = equityCurve[0]` over the whole series. -/
def mostRecentAtOrBefore (equityCurve : List EquityPoint) (t : Int) : Option EquityPoint :=
  match equityCurve with
  | [] => none
  | p0 :: _ => some (scanLatest t p0 equityCurve)

/-- Playback state of `SimulationDesk` (`useState` at lines 50–51):
the cursor index and the playing flag. -/
structure SimState where
  currentIndex : Nat
  isPlaying : Bool
deriving DecidableEq, Repr

/-- The interval callback of `SimulationDesk.tsx` lines 65–73: at
`prev >= totalCandles - 1` stop playing and keep the index, otherwise advance
the index by one. -/
def tick (totalCandles : Nat) (s : SimState) : SimState :=
  if totalCandles - 1 ≤ s.currentIndex then
    { s with isPlaying := false }
  else
    { s with currentIndex := s.currentIndex + 1 }

/-- `n` consecutive timer firings. -/
def ticks (totalCandles : Nat) : Nat → SimState → SimState
  | 0, s => s
  | n + 1, s => ticks totalCandles n (tick totalCandles s)

/-- `handleStepBack` of `SimulationDesk.tsx` line 147:
`Math.max(0, prev - 1)`, which is truncated subtraction on `Nat`. -/
def handleStepBack (s : SimState) : SimState :=
  { s with currentIndex := s.currentIndex - 1 }

/-- `handleStepForward` of `SimulationDesk.tsx` line 148:
`Math.min(maxIndex, prev + 1)`. -/
def handleStepForward (maxIndex : Nat) (s : SimState) : SimState :=
  { s with currentIndex := min maxIndex (s.currentIndex + 1) }

/-- `handleScrub` of `SimulationDesk.tsx` lines 142–145: stop playing and jump
to the requested index. -/
def handleScrub (v : Nat) (s : SimState) : SimState :=
  { s with isPlaying := false, currentIndex := v }

/-- Whole-desk state used to reason about series replacement
(`SimulationDesk.tsx` lines 58–75).  `totalCandles` is the length of the
current candle series; `session` is a counter standing for the *identity* of
the series references (it grows on every wholesale replacement, exactly as the
`[candles, equityCurve, trades]` dependency array changes by identity);
`timer` records which session owns the live `setInterval`, `none` when
`clearInterval` has run. -/
structure DeskM where
  totalCandles : Nat
  session : Nat
  currentIndex : Nat
  isPlaying : Bool
  timer : Option Nat
deriving DecidableEq, Repr

/-- Re-synchronisation performed by the effect of lines 63–75 after each state
commit: while playing (and with more than one candle) a timer owned by the
current series session is live; otherwise the cleanup `clearInterval` has run
and no timer is live. -/
def syncTimer (s : DeskM) : DeskM :=
  { s with timer := if s.isPlaying ∧ 1 < s.totalCandles then some s.session else none }

/-- Events acting on the desk: a wholesale series replacement (new backtest, a
new reference of length `n`), a firing of the interval callback registered by
session `sid`, and the user controls. -/
inductive DeskEv
  | replace (n : Nat)
  | timerTick (sid : Nat)
  | togglePlay
  | stepFwd
  | stepBack
  | scrub (v : Nat)
deriving DecidableEq, Repr

/-- The body of the interval callback, on `DeskM` (lines 66–72). -/
def deskTick (s : DeskM) : DeskM :=
  if s.totalCandles - 1 ≤ s.currentIndex then
    { s with isPlaying := false }
  else
    { s with currentIndex := s.currentIndex + 1 }

/-- One event step.  `replace` is the reset effect of lines 58–61
(`setCurrentIndex(0); setIsPlaying(false)`) together with the arrival of the
new series reference; `timerTick sid` mutates state only when the interval
registered by session `sid` is still live (`clearInterval` guarantees a
cancelled callback never fires).  Every step ends with the effect
re-synchronisation. -/
def applyEv (s : DeskM) (e : DeskEv) : DeskM :=
  syncTimer <|
    match e with
    | .replace n =>
        { s with totalCandles := n, session := s.session + 1,
                 currentIndex := 0, isPlaying := false }
    | .timerTick sid => if s.timer = some sid then deskTick s else s
    | .togglePlay => { s with isPlaying := !s.isPlaying }
    | .stepFwd => { s with currentIndex := min (s.totalCandles - 1) (s.currentIndex + 1) }
    | .stepBack => { s with currentIndex := s.currentIndex - 1 }
    | .scrub v => { s with isPlaying := false, currentIndex := v }

/-- Processing a list of events in order. -/
def applyEvs (s : DeskM) (evs : List DeskEv) : DeskM :=
  evs.foldl applyEv s

/-- A price bar of the `priceData` array of `src/unnamed/part_001`; `close`
and `price` are optional fields read as `bar.close ?? bar.price ?? 0`. -/
structure PriceBar where
  time : Int
  close : Option ℚ
  price : Option ℚ
deriving DecidableEq, Repr

/-- An equity-curve sample of `src/unnamed/part_001` (only the `equity` field
is read by the marker inference). -/
structure EqSample where
  equity : ℚ
deriving DecidableEq, Repr

/-- An inferred trade marker (`TradeMarker` of `src/unnamed/part_001`). -/
structure TradeMarker where
  time : Int
  price : ℚ
  side : Side
deriving DecidableEq, Repr

/-- The epsilon `1e-9` of `src/unnamed/part_001` line 265. -/
def markerEps : ℚ := 1 / 1000000000

/-- One iteration of the marker loop (`src/unnamed/part_001` lines 260–282)
at equity index `i`: skip when `|curr - prev| < 1e-9`, skip when the mapped
bar index falls outside `priceData`, otherwise emit a marker at the mapped
bar's time with price `bar.close ?? bar.price ?? 0`, `long` when
`curr >= prev` and `short` otherwise.  (Within the loop `i` and `i - 1` are
valid equity indices and the `getD` defaults are never used.) -/
def markerAt (priceData : List PriceBar) (equityCurve : List EqSample)
    (offset : Nat) (i : Nat) : Option TradeMarker :=
  let prev := (equityCurve.getD (i - 1) ⟨0⟩).equity
  let curr := (equityCurve.getD i ⟨0⟩).equity
  if |curr - prev| < markerEps then none
  else if i - offset < priceData.length then
    let bar := priceData.getD (i - offset) ⟨0, none, none⟩
    some { time := bar.time
           price := bar.close.getD (bar.price.getD 0)
           side := if prev ≤ curr then Side.long else Side.short }
  else none

/-- `tradeMarkers` of `src/unnamed/part_001` lines 243–283.  `step` is
`simState.step`, the playback progress.  Guard:
`priceData.length && equityCurve.length > 1`; `offset` is
`Math.max(totalBars - candlesCount, 0)` (truncated subtraction);
`lastEquityIdx = Math.min(step, totalBars - 1)`;
`startIdx = Math.max(offset + 1, 1)`; the loop runs `i` from `startIdx` to
`lastEquityIdx` inclusive. -/
def tradeMarkers (priceData : List PriceBar) (equityCurve : List EqSample)
    (step : Nat) : List TradeMarker :=
  if 0 < priceData.length ∧ 1 < equityCurve.length then
    let totalBars := equityCurve.length
    let offset := totalBars - priceData.length
    let lastEquityIdx := min step (totalBars - 1)
    let startIdx := max (offset + 1) 1
    (List.range' startIdx (lastEquityIdx + 1 - startIdx)).filterMap
      (markerAt priceData equityCurve offset)
  else []

/-- A JavaScript number: either a finite value (restricted to integers, which
is all the timestamp code distinguishes) or a value rejected by
`Number.isFinite` (`NaN`, `±Infinity`). -/
inductive JsNum
  | nan
  | num (v : Int)
deriving DecidableEq, Repr

/-- The numeric branch of `normalizeTimestamp` (`TvCandles.tsx` lines 48–70):
`null` for a missing or non-finite value, otherwise
`value > 2_000_000_000 ? Math.floor(value / 1000) : Math.floor(value)`;
`Math.floor` of a real quotient is `Int.fdiv`. -/
def normalizeTimestamp : Option JsNum → Option Int
  | none => none
  | some .nan => none
  | some (.num v) => some (if 2000000000 < v then v.fdiv 1000 else v)

/-- A raw candle handed to the chart adapter (`TvCandlePoint` of
`TvCandles.tsx`, with the time fields restricted to numeric JS values:
`open` is spelled `open_` because `open` is reserved in Lean). -/
structure TvCandlePoint where
  time : JsNum
  ts : Option JsNum
  open_ : JsNum
  high : JsNum
  low : JsNum
  close : JsNum
deriving DecidableEq, Repr

/-- `getPointTimestamp` of `TvCandles.tsx` lines 72–73:
`normalizeTimestamp(point.time) ?? normalizeTimestamp(point.ts)`. -/
def getPointTimestamp (p : TvCandlePoint) : Option Int :=
  match normalizeTimestamp (some p.time) with
  | some ts => some ts
  | none => normalizeTimestamp p.ts

/-- A validated candle as pushed to the chart series. -/
structure ChartCandle where
  time : Int
  open_ : Int
  high : Int
  low : Int
  close : Int
deriving DecidableEq, Repr

/-- `Number.isFinite` guard: the finite value of a `JsNum`, if any. -/
def finiteVal : JsNum → Option Int
  | .nan => none
  | .num v => some v

/-- The per-candle validation of `TvCandles.tsx` lines 186–205: resolve the
timestamp and require all four OHLC fields finite, else `null`. -/
def mapCandle (d : TvCandlePoint) : Option ChartCandle :=
  match getPointTimestamp d, finiteVal d.open_, finiteVal d.high,
      finiteVal d.low, finiteVal d.close with
  | some ts, some o, some h, some l, some c => some ⟨ts, o, h, l, c⟩
  | _, _, _, _, _ => none

/-- Comparator of the candle sort at `TvCandles.tsx` line 208. -/
def candleLe (a b : ChartCandle) : Bool :=
  decide (a.time ≤ b.time)

/-- `FALLBACK_SERIES` of `TvCandles.tsx` lines 30–46: five hardcoded demo
bars, one minute apart, starting at `base` (which the source computes as
`Math.floor(Date.now() / 1000) - 60 * 5`; the wall clock is a parameter
here). -/
def FALLBACK_SERIES (base : Int) : List ChartCandle :=
  [ ⟨base + 0 * 60, 100, 105, 95, 102⟩,
    ⟨base + 1 * 60, 102, 108, 101, 107⟩,
    ⟨base + 2 * 60, 107, 109, 103, 104⟩,
    ⟨base + 3 * 60, 104, 106, 98, 99⟩,
    ⟨base + 4 * 60, 99, 102, 96, 101⟩ ]

/-- The map/filter/sort of the candle effect (`TvCandles.tsx` lines 184–209):
drop invalid candles, sort the survivors ascending by time.  (When `data` is
empty both the source and this definition produce `[]`.) -/
def mappedCandles (data : List TvCandlePoint) : List ChartCandle :=
  (data.filterMap mapCandle).mergeSort candleLe

/-- What the candle effect pushes to the chart (`TvCandles.tsx` lines
211–220): the mapped series, or the fallback demo series when nothing
validated. -/
def pushedSeries (base : Int) (data : List TvCandlePoint) : List ChartCandle :=
  if (mappedCandles data).length = 0 then FALLBACK_SERIES base
  else mappedCandles data

/-- The per-cursor snapshot surfaced by `SimulationDesk`. -/
structure Snapshot where
  currentTs : Option Int
  equity : ℚ
  openTrades : List Trade
  realizedPnl : ℚ
deriving DecidableEq, Repr

/-- What `SimulationDesk` renders: the explicit empty state of lines 150–156,
or the dashboard around a snapshot. -/
inductive DeskView
  | noData
  | dashboard (snapshot : Snapshot)
deriving DecidableEq, Repr

/-- `currentTs` of `SimulationDesk.tsx` lines 85–90 (given `hasData`): the
resolved timestamp of the active candle, falling back to
`equityCurve[min(activeIndex, equityCurve.length - 1)]?.ts ?? null`. -/
def currentTsOf (candles : List ChartPoint) (equityCurve : List EquityPoint)
    (activeIndex : Nat) : Option Int :=
  match resolveTimestamp (candles.get? activeIndex) with
  | some ts => some ts
  | none => (equityCurve.get? (min activeIndex (equityCurve.length - 1))).map (·.ts)

/-- The snapshot computed by `SimulationDesk.tsx` lines 83–127 when data is
present: clamp the cursor, resolve its timestamp, look up the current equity
point (last sample when the timestamp is unknown), and derive equity, open
trades and realized P&L. -/
def snapshotOf (candles : List ChartPoint) (equityCurve : List EquityPoint)
    (trades : List Trade) (currentIndex : Nat) : Snapshot :=
  let activeIndex := min currentIndex (candles.length - 1)
  let currentTs := currentTsOf candles equityCurve activeIndex
  let equityPoint :=
    match currentTs with
    | none => equityCurve.getLast?
    | some t => mostRecentAtOrBefore equityCurve t
  { currentTs := currentTs
    equity :=
      match equityPoint with
      | some p => p.equity
      | none =>
        match equityCurve.getLast? with
        | some p => p.equity
        | none => 0
    openTrades :=
      match currentTs with
      | none => []
      | some t => openTrades trades t
    realizedPnl :=
      match currentTs with
      | none => 0
      | some t => realizedPnl trades t }

/-- `hasData` of `SimulationDesk.tsx` lines 54–55:
`totalCandles > 0 && equityCurve.length > 0`. -/
def hasData (candles : List ChartPoint) (equityCurve : List EquityPoint) : Bool :=
  decide (0 < candles.length) && decide (0 < equityCurve.length)

/-- The render branch of `SimulationDesk.tsx` lines 150–156: without data the
component returns the explicit empty-state element, otherwise the dashboard
built from the snapshot. -/
def simDeskView (candles : List ChartPoint) (equityCurve : List EquityPoint)
    (trades : List Trade) (currentIndex : Nat) : DeskView :=
  if hasData candles equityCurve then
    .dashboard (snapshotOf candles equityCurve trades currentIndex)
  else
    .noData

/-! Concrete fixtures used to instantiate the theorems below. -/

/-- The trade of the spec's scenario: entry at 0, exit at 120000, pnl 50. -/
def demoTrade : Trade :=
  { id := 1, symbol := "BTCUSDT", side := Side.long, entry_ts := 0,
    exit_ts := some 120000, entry_price := 100, exit_price := some 150,
    qty := 1, pnl := 50, max_drawdown_during_trade := none }

/-- The equity curve of the spec's scenario. -/
def demoEquity : List EquityPoint := [⟨0, 1000⟩, ⟨120000, 1050⟩]

/-- Two price bars one minute apart. -/
def demoBars : List PriceBar := [⟨0, some 10, none⟩, ⟨60, some 11, none⟩]

/-- An equity series whose single delta is exactly the inference epsilon. -/
def demoEqEps : List EqSample := [⟨0⟩, ⟨1 / 1000000000⟩]

/-- An equity series whose single delta clearly exceeds the epsilon. -/
def demoEqBig : List EqSample := [⟨0⟩, ⟨1 / 1000000⟩]

/-- A candle whose timestamp is not normalizable (`NaN` time, no `ts`). -/
def demoBadCandle : TvCandlePoint :=
  { time := JsNum.nan, ts := none, open_ := JsNum.num 1, high := JsNum.num 1,
    low := JsNum.num 1, close := JsNum.num 1 }

/-! ### Theorems -/

theorem openTradePred_iff (t : Int) (tr : Trade) :
    openTradePred t tr = true ↔
      tr.entry_ts ≤ t ∧ (tr.exit_ts = none ∨ ∃ e, tr.exit_ts = some e ∧ t < e) := by
  unfold openTradePred
  cases h : tr.exit_ts <;> simp [h]

theorem openTrades_mem (trades : List Trade) (t : Int) (tr : Trade) :
    tr ∈ openTrades trades t ↔
      tr ∈ trades ∧ tr.entry_ts ≤ t ∧
        (tr.exit_ts = none ∨ ∃ e, tr.exit_ts = some e ∧ t < e) := by
  unfold openTrades
  rw [List.mem_mergeSort, List.mem_filter, openTradePred_iff]

theorem openTrades_sorted (trades : List Trade) (t : Int) :
    (openTrades trades t).Pairwise fun a b => a.entry_ts ≤ b.entry_ts := by
  have h := @List.sorted_mergeSort Trade tradeLe
    (fun a b c hab hbc => by
      simp only [tradeLe, decide_eq_true_iff] at hab hbc ⊢; omega)
    (fun a b => by
      simp only [tradeLe, Bool.or_eq_true, decide_eq_true_iff]; omega)
    (trades.filter (openTradePred t))
  exact h.imp (by intro a b hab; simpa [tradeLe] using hab)

/-- C1: `openTrades trades t` contains exactly the trades whose `entry_ts` is
at or before `t` and whose `exit_ts` is absent or strictly after `t`; the
result is sorted ascending by entry timestamp for an arbitrary (unsorted)
input list; a trade exiting exactly at `t` is excluded at `t` and (when it
entered by `t - 1`) included at `t - 1`. -/
theorem openTrades_spec (trades : List Trade) (t : Int) :
    (∀ tr : Trade, tr ∈ openTrades trades t ↔
      tr ∈ trades ∧ tr.entry_ts ≤ t ∧
        (tr.exit_ts = none ∨ ∃ e, tr.exit_ts = some e ∧ t < e))
    ∧ (openTrades trades t).Pairwise (fun a b => a.entry_ts ≤ b.entry_ts)
    ∧ (∀ tr ∈ trades, ∀ e : Int, tr.exit_ts = some e → tr ∉ openTrades trades e)
    ∧ (∀ tr ∈ trades, ∀ e : Int, tr.exit_ts = some e → tr.entry_ts ≤ e - 1 →
        tr ∈ openTrades trades (e - 1)) := by
  refine ⟨fun tr => openTrades_mem trades t tr, openTrades_sorted trades t, ?_, ?_⟩
  · intro tr _ e he hmem
    rcases (openTrades_mem trades e tr).1 hmem with ⟨-, -, hopen⟩
    rcases hopen with h | ⟨e', he', hlt⟩
    · rw [he] at h; cases h
    · rw [he] at he'
      injection he' with h'
      omega
  · intro tr htr e he hentry
    exact (openTrades_mem trades (e - 1) tr).2 ⟨htr, hentry, Or.inr ⟨e, he, by omega⟩⟩

theorem openTrades_spec_witness :
    demoTrade ∉ openTrades [demoTrade] 120000 ∧
      demoTrade ∈ openTrades [demoTrade] (120000 - 1) :=
  ⟨(openTrades_spec [demoTrade] 0).2.2.1 demoTrade (List.mem_cons_self _ _)
      120000 rfl,
   (openTrades_spec [demoTrade] 0).2.2.2 demoTrade (List.mem_cons_self _ _)
      120000 rfl (by decide)⟩

theorem getLast?_cons_getD {α : Type} (xs : List α) (a d : α) :
    ((a :: xs).getLast?).getD d = (xs.getLast?).getD a := by
  cases xs with
  | nil => rfl
  | cons b ys =>
    rw [List.getLast?_cons_cons]
    cases h : (b :: ys).getLast? with
    | some x => rfl
    | none => simp [List.getLast?] at h

theorem scanLatest_eq (t : Int) (l : List EquityPoint) (latest : EquityPoint)
    (hs : l.Pairwise fun a b => a.ts ≤ b.ts) :
    scanLatest t latest l =
      ((l.filter fun p => decide (p.ts ≤ t)).getLast?).getD latest := by
  induction l generalizing latest with
  | nil => rfl
  | cons p rest ih =>
    rw [List.pairwise_cons] at hs
    by_cases hp : p.ts ≤ t
    · simp only [scanLatest]
      rw [if_pos hp, List.filter_cons_of_pos (by simpa using hp),
        getLast?_cons_getD]
      exact ih p hs.2
    · simp only [scanLatest]
      rw [if_neg hp, List.filter_cons_of_neg (by simpa using hp)]
      have hnil : rest.filter (fun p => decide (p.ts ≤ t)) = [] := by
        rw [List.filter_eq_nil_iff]
        intro q hq
        simp only [decide_eq_true_iff]
        have := hs.1 q hq
        omega
      rw [hnil]
      rfl

/-- C2: on a non-empty equity series sorted ascending by timestamp,
`mostRecentAtOrBefore` returns the last element with `ts ≤ t` (the `getLast?`
of the filtered series), defaulting to the first element — in particular, for
`t` before the first sample it returns the first element, never `none`. -/
theorem mostRecentAtOrBefore_spec (equityCurve : List EquityPoint) (t : Int)
    (p0 : EquityPoint) (rest : List EquityPoint)
    (heq : equityCurve = p0 :: rest)
    (hs : equityCurve.Pairwise fun a b => a.ts ≤ b.ts) :
    mostRecentAtOrBefore equityCurve t =
      some (((equityCurve.filter fun p => decide (p.ts ≤ t)).getLast?).getD p0)
    ∧ (t < p0.ts → mostRecentAtOrBefore equityCurve t = some p0) := by
  subst heq
  have hmain : mostRecentAtOrBefore (p0 :: rest) t =
      some ((((p0 :: rest).filter fun p => decide (p.ts ≤ t)).getLast?).getD p0) := by
    simp only [mostRecentAtOrBefore]
    rw [scanLatest_eq t (p0 :: rest) p0 hs]
  refine ⟨hmain, fun hlt => ?_⟩
  rw [hmain]
  have hnil : (p0 :: rest).filter (fun p => decide (p.ts ≤ t)) = [] := by
    rw [List.filter_eq_nil_iff]
    intro q hq
    simp only [decide_eq_true_iff]
    rcases List.mem_cons.1 hq with h | h
    · subst h; omega
    · have := (List.pairwise_cons.1 hs).1 q h
      omega
  rw [hnil]
  rfl

theorem mostRecentAtOrBefore_spec_witness :
    mostRecentAtOrBefore demoEquity 60000 =
      some (((demoEquity.filter fun p => decide (p.ts ≤ 60000)).getLast?).getD ⟨0, 1000⟩)
    ∧ mostRecentAtOrBefore demoEquity (-5) = some ⟨0, 1000⟩ :=
  ⟨(mostRecentAtOrBefore_spec demoEquity 60000 ⟨0, 1000⟩ [⟨120000, 1050⟩] rfl
      (by constructor <;> simp)).1,
   (mostRecentAtOrBefore_spec demoEquity (-5) ⟨0, 1000⟩ [⟨120000, 1050⟩] rfl
      (by constructor <;> simp)).2 (by decide)⟩

theorem foldl_add_pnl (l : List Trade) (a : ℚ) :
    l.foldl (fun s tr => s + tr.pnl) a = a + (l.map fun tr => tr.pnl).sum := by
  induction l generalizing a with
  | nil => simp
  | cons tr l ih => simp [ih, add_assoc]

theorem sum_filter_pnl (p : Trade → Bool) (l : List Trade) :
    ((l.filter p).map fun tr => tr.pnl).sum =
      (l.map fun tr => if p tr then tr.pnl else 0).sum := by
  induction l with
  | nil => rfl
  | cons tr l ih =>
    by_cases h : p tr
    · rw [List.filter_cons_of_pos h]
      simp [h, ih]
    · rw [List.filter_cons_of_neg h]
      simp [h, ih]

/-- C3: the realized P&L at cursor time `t` is the sum of `pnl` over exactly
the trades whose exit timestamp is present and at most `t`; on the scenario
trade (entry 0, exit 120000, pnl 50) it is 0 at `t = 60000` and 50 at
`t = 120000`. -/
theorem realizedPnl_spec (trades : List Trade) (t : Int) :
    realizedPnl trades t =
      (trades.map fun tr =>
        match tr.exit_ts with
        | none => 0
        | some e => if e ≤ t then tr.pnl else (0 : ℚ)).sum
    ∧ realizedPnl [demoTrade] 60000 = 0
    ∧ realizedPnl [demoTrade] 120000 = 50 := by
  refine ⟨?_, ?_, ?_⟩
  · unfold realizedPnl
    rw [foldl_add_pnl, zero_add, sum_filter_pnl]
    refine congrArg List.sum (List.map_congr_left ?_)
    intro tr _
    unfold closedByPred
    cases h : tr.exit_ts <;> simp [h]
  · norm_num [realizedPnl, closedByPred, demoTrade]
  · norm_num [realizedPnl, closedByPred, demoTrade]

/-- C4 as stated is false: `s = 1000` is an integer below the `2×10⁹`
threshold, yet `normalize(1000) = 1000` while `normalize(1000 * 1000) =
1000000` — for instants up to `2×10⁶` seconds the scaled value stays below
the threshold and is treated as seconds again, so the two encodings
disagree. -/
theorem normalizeTimestamp_unit_counterexample :
    (1000 : Int) < 2000000000
    ∧ normalizeTimestamp (some (JsNum.num 1000)) = some 1000
    ∧ normalizeTimestamp (some (JsNum.num (1000 * 1000))) = some 1000000
    ∧ normalizeTimestamp (some (JsNum.num 1000)) ≠
        normalizeTimestamp (some (JsNum.num (1000 * 1000))) := by
  refine ⟨by decide, rfl, rfl, by decide⟩

/-- C4 amended: for every integer `s` with `2×10⁶ < s ≤ 2×10⁹` (so that
`s * 1000` lands above the millisecond threshold while `s` itself does not),
the normalizer maps the epoch-seconds and the epoch-milliseconds encodings of
the instant to the same canonical value `s`. -/
theorem normalizeTimestamp_unit_agreement (s : Int)
    (h1 : 2000000 < s) (h2 : s ≤ 2000000000) :
    normalizeTimestamp (some (JsNum.num s)) = some s
    ∧ normalizeTimestamp (some (JsNum.num (s * 1000))) = some s := by
  constructor
  · simp only [normalizeTimestamp]
    rw [if_neg (by omega)]
  · simp only [normalizeTimestamp]
    rw [if_pos (by omega), Int.mul_fdiv_cancel s (by norm_num)]

theorem normalizeTimestamp_unit_agreement_witness :
    normalizeTimestamp (some (JsNum.num 1700000000)) = some 1700000000
    ∧ normalizeTimestamp (some (JsNum.num (1700000000 * 1000))) = some 1700000000 :=
  normalizeTimestamp_unit_agreement 1700000000 (by decide) (by decide)

theorem ticks_le (total : Nat) :
    ∀ (n : Nat) (s : SimState), s.currentIndex ≤ total - 1 →
      (ticks total n s).currentIndex ≤ total - 1 := by
  intro n
  induction n with
  | zero => intro s hs; exact hs
  | succ n ih =>
    intro s hs
    show (ticks total n (tick total s)).currentIndex ≤ total - 1
    apply ih
    unfold tick
    by_cases h : total - 1 ≤ s.currentIndex
    · rw [if_pos h]; exact hs
    · rw [if_neg h]
      simp only
      omega

theorem ticks_complete (total : Nat) :
    ∀ (k : Nat) (s : SimState), s.currentIndex + k = total - 1 →
      ticks total (k + 1) s = ⟨total - 1, false⟩ := by
  intro k
  induction k with
  | zero =>
    intro s hs
    show tick total s = _
    unfold tick
    rw [if_pos (by omega)]
    cases s with
    | mk idx play =>
      simp only [SimState.mk.injEq]
      exact ⟨by simpa using hs, trivial⟩
  | succ k ih =>
    intro s hs
    show ticks total (k + 1) (tick total s) = _
    have hstep : tick total s = { s with currentIndex := s.currentIndex + 1 } := by
      unfold tick
      rw [if_neg (by omega)]
    rw [hstep]
    exact ih _ (by simp; omega)

/-- C5: while the controller is playing with the cursor in range, a timer
firing below the last index advances the cursor by exactly one (leaving the
playing flag alone); the cursor never passes the last index under any number
of firings; and letting the timer fire `lastIndex - index + 1` times lands
exactly on the last index with the controller stopped. -/
theorem tick_playback_spec (total : Nat) (s : SimState) (h1 : 1 ≤ total)
    (hidx : s.currentIndex ≤ total - 1) (_hplay : s.isPlaying = true) :
    (s.currentIndex < total - 1 →
      tick total s = { s with currentIndex := s.currentIndex + 1 })
    ∧ (∀ n : Nat, (ticks total n s).currentIndex ≤ total - 1)
    ∧ ticks total (total - 1 - s.currentIndex + 1) s =
        { currentIndex := total - 1, isPlaying := false } := by
  refine ⟨?_, fun n => ticks_le total n s hidx,
    ticks_complete total (total - 1 - s.currentIndex) s (by omega)⟩
  intro h
  unfold tick
  rw [if_neg (by omega)]

theorem tick_playback_spec_witness :
    ticks 3 3 ⟨0, true⟩ = ⟨2, false⟩ :=
  (tick_playback_spec 3 ⟨0, true⟩ (by decide) (by decide) rfl).2.2

theorem applyEvs_ticks_fixed (n sess : Nat) (evs : List DeskEv)
    (hold : ∀ e ∈ evs, ∃ sid, e = DeskEv.timerTick sid) :
    applyEvs ⟨n, sess, 0, false, none⟩ evs = ⟨n, sess, 0, false, none⟩ := by
  induction evs with
  | nil => rfl
  | cons e evs ih =>
    obtain ⟨sid, he⟩ := hold e (List.mem_cons_self e evs)
    subst he
    have h1 : applyEv (⟨n, sess, 0, false, none⟩ : DeskM) (DeskEv.timerTick sid) =
        ⟨n, sess, 0, false, none⟩ := by
      simp [applyEv, syncTimer]
    show applyEvs (applyEv ⟨n, sess, 0, false, none⟩ (DeskEv.timerTick sid)) evs = _
    rw [h1]
    exact ih fun e hm => hold e (List.mem_cons_of_mem _ hm)

/-- C6: processing a wholesale series replacement resets the cursor to 0,
forces the playing flag off and leaves no live timer; afterwards, any
sequence of interval callbacks owned by the replaced sessions leaves the
state — in particular the cursor — completely unchanged. -/
theorem replace_resets_spec (s : DeskM) (n : Nat) (evs : List DeskEv)
    (hold : ∀ e ∈ evs, ∃ sid, e = DeskEv.timerTick sid ∧ sid ≤ s.session) :
    (applyEv s (DeskEv.replace n)).currentIndex = 0
    ∧ (applyEv s (DeskEv.replace n)).isPlaying = false
    ∧ (applyEv s (DeskEv.replace n)).timer = none
    ∧ applyEvs (applyEv s (DeskEv.replace n)) evs = applyEv s (DeskEv.replace n) := by
  have hstate : applyEv s (DeskEv.replace n) =
      ⟨n, s.session + 1, 0, false, none⟩ := by
    simp [applyEv, syncTimer]
  rw [hstate]
  exact ⟨rfl, rfl, rfl,
    applyEvs_ticks_fixed n (s.session + 1) evs fun e hm =>
      ⟨(hold e hm).choose, (hold e hm).choose_spec.1⟩⟩

theorem replace_resets_spec_witness :
    (applyEv ⟨5, 0, 3, true, some 0⟩ (DeskEv.replace 7)).currentIndex = 0
    ∧ (applyEv ⟨5, 0, 3, true, some 0⟩ (DeskEv.replace 7)).isPlaying = false
    ∧ (applyEv ⟨5, 0, 3, true, some 0⟩ (DeskEv.replace 7)).timer = none
    ∧ applyEvs (applyEv ⟨5, 0, 3, true, some 0⟩ (DeskEv.replace 7))
        [DeskEv.timerTick 0] = applyEv ⟨5, 0, 3, true, some 0⟩ (DeskEv.replace 7) :=
  replace_resets_spec ⟨5, 0, 3, true, some 0⟩ 7 [DeskEv.timerTick 0]
    (by
      intro e he
      rw [List.mem_singleton] at he
      exact ⟨0, he, Nat.le_refl 0⟩)

/-- C7 as stated is false on the code: the manual step handlers only move the
cursor and do not touch the playing flag, so a step taken while playing does
not pause playback. -/
theorem step_pauses_counterexample :
    handleStepForward 2 ⟨0, true⟩ = ⟨1, true⟩
    ∧ (handleStepForward 2 ⟨0, true⟩).isPlaying = true
    ∧ (handleStepBack ⟨1, true⟩).isPlaying = true := by
  refine ⟨rfl, rfl, rfl⟩

/-- C7 amended: a manual step moves the cursor by ±1 clamped to
`[0, maxIndex]`, is legal in every state (at the boundaries it leaves the
cursor unchanged), leaves the playing flag exactly as it was (it does **not**
pause), and a forward step followed by a backward step restores the state
whenever the cursor started below the upper boundary. -/
theorem step_spec (maxIndex : Nat) (s : SimState) :
    (handleStepForward maxIndex s).isPlaying = s.isPlaying
    ∧ (handleStepBack s).isPlaying = s.isPlaying
    ∧ (handleStepForward maxIndex s).currentIndex ≤ maxIndex
    ∧ (s.currentIndex < maxIndex →
        handleStepForward maxIndex s = { s with currentIndex := s.currentIndex + 1 })
    ∧ (s.currentIndex = maxIndex → handleStepForward maxIndex s = s)
    ∧ (handleStepBack s).currentIndex = s.currentIndex - 1
    ∧ (s.currentIndex = 0 → handleStepBack s = s)
    ∧ (s.currentIndex < maxIndex →
        handleStepBack (handleStepForward maxIndex s) = s) := by
  cases s with
  | mk idx play =>
    refine ⟨rfl, rfl, by simp [handleStepForward], ?_, ?_, rfl, ?_, ?_⟩
    · intro h
      simp only [handleStepForward, SimState.mk.injEq]
      exact ⟨by simp at h ⊢; omega, trivial⟩
    · intro h
      simp only [handleStepForward, SimState.mk.injEq]
      exact ⟨by simp at h ⊢; omega, trivial⟩
    · intro h
      simp only [handleStepBack, SimState.mk.injEq]
      exact ⟨by simp at h ⊢; omega, trivial⟩
    · intro h
      simp only [handleStepForward, handleStepBack, SimState.mk.injEq]
      exact ⟨by simp at h ⊢; omega, trivial⟩

theorem step_spec_witness :
    handleStepBack (handleStepForward 2 ⟨1, false⟩) = ⟨1, false⟩
    ∧ handleStepForward 2 ⟨2, true⟩ = ⟨2, true⟩ :=
  ⟨(step_spec 2 ⟨1, false⟩).2.2.2.2.2.2.2 (by decide),
   (step_spec 2 ⟨2, true⟩).2.2.2.2.1 rfl⟩

theorem markerAt_eq_some_iff (pd : List PriceBar) (eqc : List EqSample)
    (off i : Nat) (m : TradeMarker) :
    markerAt pd eqc off i = some m ↔
      ¬ |(eqc.getD i ⟨0⟩).equity - (eqc.getD (i - 1) ⟨0⟩).equity| < markerEps
      ∧ i - off < pd.length
      ∧ m = { time := (pd.getD (i - off) ⟨0, none, none⟩).time
              price := (pd.getD (i - off) ⟨0, none, none⟩).close.getD
                ((pd.getD (i - off) ⟨0, none, none⟩).price.getD 0)
              side := if (eqc.getD (i - 1) ⟨0⟩).equity ≤ (eqc.getD i ⟨0⟩).equity
                then Side.long else Side.short } := by
  unfold markerAt
  by_cases h1 : |(eqc.getD i ⟨0⟩).equity - (eqc.getD (i - 1) ⟨0⟩).equity| < markerEps
  · rw [if_pos h1]
    constructor
    · intro h
      cases h
    · rintro ⟨hns, -, -⟩
      exact absurd h1 hns
  · rw [if_neg h1]
    by_cases h2 : i - off < pd.length
    · rw [if_pos h2]
      constructor
      · intro h
        exact ⟨h1, h2, (Option.some.inj h).symm⟩
      · rintro ⟨-, -, h6⟩
        rw [h6]
    · rw [if_neg h2]
      constructor
      · intro h
        cases h
      · rintro ⟨-, hlt, -⟩
        exact absurd hlt h2

/-- C8 amended: with a non-empty candle array and at least two equity
samples, the inferred markers are exactly those produced by the equity pairs
`(equity[i-1], equity[i])` with `1 ≤ i`, `i` past the warm-up offset
`len(equity) - len(candles)` (truncated at 0), `i` within the playback
progress `min(step, len(equity) - 1)`, and `|Δequity| ≥ 1e-9` (the source
skips only deltas strictly below the epsilon), whose mapped bar index
`i - offset` lands in the candle array; the marker carries the mapped bar's
time and price `close ?? price ?? 0` and is `long` exactly when equity did
not decrease. -/
theorem tradeMarkers_spec (pd : List PriceBar) (eqc : List EqSample)
    (step : Nat) (m : TradeMarker)
    (hp : 0 < pd.length) (he : 1 < eqc.length) :
    m ∈ tradeMarkers pd eqc step ↔
      ∃ i : Nat,
        eqc.length - pd.length + 1 ≤ i
        ∧ 1 ≤ i
        ∧ i ≤ min step (eqc.length - 1)
        ∧ ¬ |(eqc.getD i ⟨0⟩).equity - (eqc.getD (i - 1) ⟨0⟩).equity| < markerEps
        ∧ i - (eqc.length - pd.length) < pd.length
        ∧ m = { time := (pd.getD (i - (eqc.length - pd.length)) ⟨0, none, none⟩).time
                price := (pd.getD (i - (eqc.length - pd.length)) ⟨0, none, none⟩).close.getD
                  ((pd.getD (i - (eqc.length - pd.length)) ⟨0, none, none⟩).price.getD 0)
                side := if (eqc.getD (i - 1) ⟨0⟩).equity ≤ (eqc.getD i ⟨0⟩).equity
                  then Side.long else Side.short } := by
  unfold tradeMarkers
  rw [if_pos ⟨hp, he⟩]
  simp only [List.mem_filterMap]
  constructor
  · rintro ⟨i, hi, hm⟩
    rw [List.mem_range'_1] at hi
    rw [markerAt_eq_some_iff] at hm
    exact ⟨i, by omega, by omega, by omega, hm.1, hm.2.1, hm.2.2⟩
  · rintro ⟨i, h1, h2, h3, h4, h5, h6⟩
    refine ⟨i, ?_, (markerAt_eq_some_iff pd eqc (eqc.length - pd.length) i m).2
      ⟨h4, h5, h6⟩⟩
    rw [List.mem_range'_1]
    omega

theorem tradeMarkers_spec_witness :
    (⟨60, 11, Side.long⟩ : TradeMarker) ∈ tradeMarkers demoBars demoEqBig 5 :=
  (tradeMarkers_spec demoBars demoEqBig 5 ⟨60, 11, Side.long⟩
      (by decide) (by decide)).2
    ⟨1, by decide, by decide, by decide,
      by norm_num [demoEqBig, markerEps, abs_of_nonneg],
      by decide,
      by norm_num [demoBars, demoEqBig]⟩

/-- C8 as stated is false on the code at the epsilon boundary: with equity
samples `[0, 1e-9]` the single delta is exactly `1e-9`, which is **not**
greater than the epsilon, yet the loop (which skips only deltas strictly
below `1e-9`) emits a marker for the mapped bar. -/
theorem tradeMarkers_epsilon_counterexample :
    tradeMarkers demoBars demoEqEps 1 = [⟨60, 11, Side.long⟩]
    ∧ ¬ ((1 : ℚ) / 1000000000 - 0 > 1 / 1000000000) := by
  constructor
  · have habs : (|(1 : ℚ) / 1000000000| < 1 / 1000000000) ↔ False := by
      rw [abs_of_nonneg (by norm_num)]
      norm_num
    norm_num [tradeMarkers, demoBars, demoEqEps, List.range',
      List.filterMap, markerAt, markerEps, habs]
  · norm_num

/-- C9: when the candle series or the equity curve is empty, the component
renders the explicit "no data" view — a value of the total render function,
not an exception — rather than a zero-equity dashboard. -/
theorem simDeskView_noData_spec (candles : List ChartPoint)
    (equityCurve : List EquityPoint) (trades : List Trade) (i : Nat)
    (h : candles = [] ∨ equityCurve = []) :
    simDeskView candles equityCurve trades i = DeskView.noData := by
  rcases h with h | h <;>
    · subst h
      simp [simDeskView, hasData]

theorem simDeskView_noData_spec_witness :
    simDeskView [] demoEquity [demoTrade] 0 = DeskView.noData
    ∧ simDeskView [⟨some 0, some 100⟩] [] [demoTrade] 0 = DeskView.noData :=
  ⟨simDeskView_noData_spec [] demoEquity [demoTrade] 0 (Or.inl rfl),
   simDeskView_noData_spec [⟨some 0, some 100⟩] [] [demoTrade] 0 (Or.inr rfl)⟩

/-- C10: when every candle handed to the chart adapter fails validation, the
adapter pushes neither an empty series nor an idle state: it substitutes the
hardcoded five-bar fallback demo series. -/
theorem fallback_on_all_invalid (base : Int) (data : List TvCandlePoint)
    (h : ∀ d ∈ data, mapCandle d = none) :
    pushedSeries base data = FALLBACK_SERIES base
    ∧ (pushedSeries base data).length = 5
    ∧ pushedSeries base data ≠ [] := by
  have hmap : mappedCandles data = [] := by
    unfold mappedCandles
    rw [List.filterMap_eq_nil_iff.2 h, List.mergeSort_nil]
  have hp : pushedSeries base data = FALLBACK_SERIES base := by
    unfold pushedSeries
    rw [hmap]
    rfl
  refine ⟨hp, by rw [hp]; rfl, by rw [hp]; simp [FALLBACK_SERIES]⟩

theorem fallback_on_all_invalid_witness :
    pushedSeries 1000 [demoBadCandle] = FALLBACK_SERIES 1000
    ∧ (pushedSeries 1000 [demoBadCandle]).length = 5
    ∧ pushedSeries 1000 [demoBadCandle] ≠ [] :=
  fallback_on_all_invalid 1000 [demoBadCandle]
    (by
      intro d hd
      rw [List.mem_singleton] at hd
      subst hd
      rfl)

end TradeBot
